import Mathlib

/-!
Verification development for the Job Discovery & Enrichment Pipeline
(job scraping aggregator, TTL cache, rate limiter, ATS scoring).

The definitions below are a shallow embedding of the TypeScript sources:
`src/services/jobScraper.ts`, `src/services/documentParser.ts`
(BrowserCache / CacheService / ATSOptimizerService) and
`src/services/rateLimiter.ts`, together with `src/config/environment.ts`.
Text is modelled as `List Char`; machine numbers as `Nat`/`ℚ`.  Where
double-precision rounding is observable — the match-score percentage
`Math.round((matchScore/totalPossibleScore)*100)` — IEEE-754 binary64
round-to-nearest-even is modelled explicitly (`flPair`); the remaining
arithmetic (additive scores, `Math.round` of integer-millisecond
quotients, `Math.min`, the ATS sums) is exact in binary64, so `Nat`/`ℚ`
model it directly.
-/

/-- Text, as JavaScript strings restricted to their character sequence. -/
abbrev Str := List Char

/-- JS `String.prototype.toLowerCase`, character-wise. -/
def jsToLower (s : Str) : Str := s.map Char.toLower

/-- Does `hay` start with `pat`?  (building block for JS `includes`). -/
def listStartsWith : Str → Str → Bool
  | _, [] => true
  | [], _ :: _ => false
  | a :: t, b :: u => (a == b) && listStartsWith t u

/-- JS `String.prototype.includes`: `pat` occurs contiguously in `hay`. -/
def listContainsSub (hay pat : Str) : Bool :=
  listStartsWith hay pat ||
    (match hay with
     | [] => false
     | _ :: t => listContainsSub t pat)

/-- JS `content.split(' ').length`: number of single-space-separated
segments, i.e. one more than the number of space characters. -/
def wordCount (s : Str) : Nat := (s.filter (fun c => c == ' ')).length + 1

/-- Counts the maximal runs of decimal digits in `s`, as
`content.match(/\d+/g)?.length` does; `prev` records whether the previous
character was a digit. -/
def countDigitRunsAux (prev : Bool) : Str → Nat
  | [] => 0
  | c :: t =>
    (if c.isDigit && !prev then 1 else 0) + countDigitRunsAux c.isDigit t

/-- Number of maximal digit runs (`/\d+/g` match count). -/
def countDigitRuns (s : Str) : Nat := countDigitRunsAux false s

/-- Is `c` an ASCII uppercase letter (`[A-Z]`)? -/
def isUpperAZ (c : Char) : Bool := 'A' ≤ c && c ≤ 'Z'

/-- Is `c` an ASCII lowercase letter (`[a-z]`)? -/
def isLowerAZ (c : Char) : Bool := 'a' ≤ c && c ≤ 'z'

/-- Do the first four characters exist and are all digits (`\d{4}`)? -/
def fourDigits : Str → Bool
  | a :: b :: c :: d :: _ => a.isDigit && b.isDigit && c.isDigit && d.isDigit
  | _ => false

/-- After `[A-Z][a-z]`, consume further `[a-z]` then require a space and
four digits — the continuation of the `/[A-Z][a-z]+ \d{4}/` date regex. -/
def dateLowerRun : Str → Bool
  | [] => false
  | c :: rest =>
    if isLowerAZ c then dateLowerRun rest
    else if c == ' ' then fourDigits rest
    else false

/-- After an `[A-Z]`, require at least one `[a-z]` then the rest of the
date pattern. -/
def dateAfterUpper : Str → Bool
  | [] => false
  | c :: rest => isLowerAZ c && dateLowerRun rest

/-- `content.match(/[A-Z][a-z]+ \d{4}/g)` is non-null: some position
starts a "Month YYYY"-shaped match. -/
def hasDatePattern : Str → Bool
  | [] => false
  | c :: rest => (isUpperAZ c && dateAfterUpper rest) || hasDatePattern rest

/-- JS `Math.round (num / den)` for non-negative integers: round half up,
i.e. `⌊num/den + 1/2⌋ = (2*num + den) / (2*den)`. -/
def jsRoundDiv (num den : Nat) : Nat := (2 * num + den) / (2 * den)

/-- Bit length with explicit fuel (structural recursion; `fuel = n + 1`
always suffices since `n` at least halves each step). -/
def natBitlenAux : Nat → Nat → Nat
  | 0, _ => 0
  | fuel + 1, n => if n = 0 then 0 else natBitlenAux fuel (n / 2) + 1

/-- Bit length of `n`: the least `k` with `n < 2^k`. -/
def natBitlen (n : Nat) : Nat := natBitlenAux (n + 1) n

/-- Round `N / D` to the nearest integer, ties to even — the rounding IEEE
arithmetic applies to the scaled significand. -/
def rndNE (N D : Nat) : Nat :=
  if 2 * (N % D) < D then N / D
  else if D < 2 * (N % D) then N / D + 1
  else if (N / D) % 2 = 0 then N / D else N / D + 1

/-- Scaling exponent for the binary64 value of `a / b` (`a, b > 0`): the
`m` with `b·2^52 ≤ a·2^m < b·2^53`, found from the bit lengths and a
two-step correction.  Valid for the quotients that arise here (`a/b`
below `2^51`, so `m ≥ 0`); the binary64 exponent range itself is not
modelled (all values reached in this file are normal). -/
def flExp (a b : Nat) : Nat :=
  let m0 := 52 + natBitlen b - natBitlen a
  if b * 2 ^ 52 ≤ a * 2 ^ (m0 - 1) then m0 - 1
  else if b * 2 ^ 52 ≤ a * 2 ^ m0 then m0
  else m0 + 1

/-- The binary64 (double) value nearest to `a / b`, as a pair `(n, m)`
denoting `n / 2^m`: scale into `[2^52, 2^53)` and round the significand
to nearest, ties to even — exactly the correctly-rounded result IEEE-754
prescribes for division (and, with `b` a power of two, multiplication). -/
def flPair (a b : Nat) : Nat × Nat :=
  let m := flExp a b
  (rndNE (a * 2 ^ m) b, m)

/-- `Math.round((m/p) * 100)` computed the way the program computes it:
`m / p` rounded to a double, multiplied by 100 and rounded to a double
again, then `Math.round` (half-up on the exact value of that double).
The `p = 0` branch is unreachable (the caller guards on
`totalPossibleScore > 0`). -/
def jsRound100Div (m p : Nat) : Nat :=
  if p = 0 then 0
  else
    jsRoundDiv (flPair (100 * (flPair m p).1) (2 ^ (flPair m p).2)).1
      (2 ^ (flPair (100 * (flPair m p).1) (2 ^ (flPair m p).2)).2)

/-- Keep the first occurrence of each element, as `[...new Set(xs)]`;
`seen` is the set of elements already emitted. -/
def dedupFirstAux [BEq α] (seen : List α) : List α → List α
  | [] => []
  | a :: t =>
    if seen.any (fun x => x == a) then dedupFirstAux seen t
    else a :: dedupFirstAux (a :: seen) t

/-- Keep the first occurrence of each element, as `[...new Set(xs)]`. -/
def dedupFirst [BEq α] (l : List α) : List α := dedupFirstAux [] l

/-- The fixed controlled vocabulary of `ATSOptimizerService.extractKeywords`
(documentParser.ts, `techKeywords`). -/
def techKeywords : List Str :=
  ["react".data, "angular".data, "vue".data, "javascript".data,
   "typescript".data, "html".data, "css".data, "sass".data, "less".data,
   "jquery".data, "bootstrap".data, "tailwind".data, "webpack".data,
   "vite".data, "next.js".data, "nuxt.js".data,
   "node.js".data, "express".data, "python".data, "django".data,
   "flask".data, "java".data, "spring".data, "c#".data, ".net".data,
   "php".data, "laravel".data, "ruby".data, "rails".data, "go".data,
   "rust".data, "scala".data,
   "sql".data, "mysql".data, "postgresql".data, "mongodb".data,
   "redis".data, "elasticsearch".data, "oracle".data,
   "sqlite".data, "cassandra".data, "dynamodb".data,
   "aws".data, "azure".data, "gcp".data, "docker".data,
   "kubernetes".data, "jenkins".data, "gitlab".data, "github".data,
   "terraform".data, "ansible".data, "ci/cd".data, "devops".data,
   "microservices".data,
   "git".data, "jira".data, "confluence".data, "agile".data,
   "scrum".data, "kanban".data, "rest".data, "graphql".data,
   "api".data, "testing".data, "jest".data, "cypress".data,
   "selenium".data,
   "leadership".data, "communication".data, "problem-solving".data,
   "teamwork".data, "project management".data,
   "analytical".data, "creative".data, "adaptable".data,
   "detail-oriented".data]

/-- `ATSOptimizerService.extractKeywords`: the vocabulary keywords whose
lower-cased form occurs in the lower-cased content, first occurrences
kept (`[...new Set(foundKeywords)]`). -/
def extractKeywords (content : Str) : List Str :=
  dedupFirst
    (techKeywords.filter
      (fun kw => listContainsSub (jsToLower content) (jsToLower kw)))

/-- One CV keyword matches a job keyword when either lower-cased string
contains the other (`cvKeyword.includes(keyword) || keyword.includes(cvKeyword)`). -/
def keywordMatched (cvKeywords : List Str) (kw : Str) : Bool :=
  cvKeywords.any (fun c =>
    listContainsSub (jsToLower c) (jsToLower kw) ||
    listContainsSub (jsToLower kw) (jsToLower c))

/-- `ATSOptimizerService.calculateMatchScore`: 3 points per matched job
keyword out of 3 each, 2 per requirement phrase contained in the CV text
out of 2 each; `Math.round((matchScore/totalPossibleScore)*100)` in
double precision (`jsRound100Div`) with a 0 guard for an empty
denominator. -/
def calculateMatchScore (cvContent : Str) (jobKeywords jobRequirements : List Str) : Nat :=
  let cvKeywords := extractKeywords cvContent
  let lowerCv := jsToLower cvContent
  let s1 := jobKeywords.foldl
    (fun (p : Nat × Nat) kw =>
      (p.1 + (if keywordMatched cvKeywords kw then 3 else 0), p.2 + 3))
    (0, 0)
  let s2 := jobRequirements.foldl
    (fun (p : Nat × Nat) req =>
      (p.1 + (if listContainsSub lowerCv (jsToLower req) then 2 else 0), p.2 + 2))
    s1
  if s2.2 > 0 then jsRound100Div s2.1 s2.2 else 0

/-- A CV text whose extracted vocabulary keywords are react, sql, aws,
python and git. -/
def cvC2 : Str :=
  "i know react sql aws git python with 3+ years experience and a degree".data

/-- Ten job keywords of which exactly five match `cvC2`. -/
def ksC2 : List Str :=
  ["react".data, "sql".data, "aws".data, "git".data, "python".data,
   "zzz1".data, "zzz2".data, "zzz3".data, "zzz4".data, "zzz5".data]

/-- Five requirement phrases of which exactly four occur in `cvC2`. -/
def rsC2 : List Str :=
  ["3+ years experience".data, "degree".data, "react".data, "sql".data,
   "kubernetes certification".data]

/-- Essential-sections part of `calculateATSScore` (up to 40 points):
experience/employment 15, education/qualification 10, skills/competencies
10, summary/profile 5, all checked on the lower-cased content. -/
def sectionScore (content : Str) : ℚ :=
  (if listContainsSub (jsToLower content) "experience".data
      || listContainsSub (jsToLower content) "employment".data
    then 15 else 0)
  + (if listContainsSub (jsToLower content) "education".data
        || listContainsSub (jsToLower content) "qualification".data
     then 10 else 0)
  + (if listContainsSub (jsToLower content) "skills".data
        || listContainsSub (jsToLower content) "competencies".data
     then 10 else 0)
  + (if listContainsSub (jsToLower content) "summary".data
        || listContainsSub (jsToLower content) "profile".data
     then 5 else 0)

/-- Keyword-density part of `calculateATSScore`:
`Math.min(keywords.length * 1.5, 25)`. -/
def keywordDensityScore (keywords : List Str) : ℚ :=
  min ((keywords.length : ℚ) * (3 / 2)) 25

/-- Word-count band of `calculateATSScore`: 400–1000 → 15, 200–1500 → 10,
≥ 100 → 5, else 0. -/
def lengthScore (content : Str) : ℚ :=
  if 400 ≤ wordCount content ∧ wordCount content ≤ 1000 then 15
  else if 200 ≤ wordCount content ∧ wordCount content ≤ 1500 then 10
  else if 100 ≤ wordCount content then 5
  else 0

/-- Formatting part of `calculateATSScore`: bullet markers 8, achievement
words 5, more than five numeric tokens 4, a `Month YYYY` date pattern 3. -/
def formatScore (content : Str) : ℚ :=
  (if listContainsSub content "•".data || listContainsSub content "-".data
      || listContainsSub content "*".data then 8 else 0)
  + (if listContainsSub (jsToLower content) "achievements".data
        || listContainsSub (jsToLower content) "accomplishments".data
     then 5 else 0)
  + (if 5 < countDigitRuns content then 4 else 0)
  + (if hasDatePattern content then 3 else 0)

/-- `ATSOptimizerService.calculateATSScore` (documentParser.ts): additive
0–100 score — essential sections, keyword density, word-count band and
formatting signals, finally `Math.min(score, 100)`.  The sequential
`score +=` steps of the source are grouped into the four component sums
(exact in `ℚ`, where `1.5 × keywordCount` can be fractional). -/
def calculateATSScore (content : Str) (keywords : List Str) : ℚ :=
  min (sectionScore content + keywordDensityScore keywords
       + lengthScore content + formatScore content) 100

/-- The section keywords whose presence feeds the essential-sections part
of the ATS score (each lower-case, free of spaces and digits). -/
def essentialSectionKeywords : List Str :=
  ["experience".data, "employment".data, "education".data, "qualification".data,
   "skills".data, "competencies".data, "summary".data, "profile".data]

/-- `source` field of a posting (src/types). -/
inductive JobSource where
  | seek
  | indeed
  | linkedin
deriving DecidableEq

/-- `applicationStatus` field of a posting (src/types). -/
inductive ApplicationStatus where
  | notApplied
  | applied
  | tailored
  | generating
deriving DecidableEq

/-- A `Job` posting (src/types), as produced and consumed by
`JobScraperService`. -/
structure Job where
  id : String
  title : String
  company : String
  location : String
  salary : String
  description : String
  requirements : List String
  keywords : List String
  url : String
  datePosted : String
  source : JobSource
  applicationStatus : ApplicationStatus
  matchScore : Nat
deriving DecidableEq

/-- JS `toLowerCase` on a whole string value. -/
def jsLowerS (s : String) : String := ⟨jsToLower s.data⟩

/-- The deduplication key of `JobScraperService.removeDuplicates`:
`` `${job.title.toLowerCase()}_${job.company.toLowerCase()}` ``. -/
def dedupKey (j : Job) : String :=
  jsLowerS j.title ++ "_" ++ jsLowerS j.company

/-- The `filter`-with-`seen`-set loop of `removeDuplicates`. -/
def removeDuplicatesAux (seen : List String) : List Job → List Job
  | [] => []
  | j :: rest =>
    if seen.contains (dedupKey j) then removeDuplicatesAux seen rest
    else j :: removeDuplicatesAux (dedupKey j :: seen) rest

/-- `JobScraperService.removeDuplicates`: keep a posting iff its key was
not seen before. -/
def removeDuplicates (jobs : List Job) : List Job := removeDuplicatesAux [] jobs

/-- A `ScrapingError` value (utils/errorHandler.ts): message plus the
optional source-site tag. -/
structure ScrapeFailure where
  message : String
  site : Option String
deriving DecidableEq

/-- The `Promise.allSettled` + `forEach` fan-in of `scrapeJobs`:
fulfilled per-source lists are concatenated in order, rejected sources
contribute nothing (they are only logged). -/
def settleAll (outcomes : List (Except ScrapeFailure (List Job))) : List Job :=
  outcomes.foldl
    (fun acc r => match r with | .ok js => acc ++ js | .error _ => acc) []

/-- `JobScraperService.enhanceJobsWithAI`: per job, a successful AI call
replaces `keywords` and `matchScore`; a failed call (per-job `catch`)
keeps the job unchanged.  `enrich` abstracts the AI call and the mock
random score: `none` means the call threw. -/
def enhanceJobsWithAI (enrich : Job → Option (List String × Nat)) (jobs : List Job) :
    List Job :=
  jobs.map (fun j =>
    match enrich j with
    | some kwsc => { j with keywords := kwsc.1, matchScore := kwsc.2 }
    | none => j)

/-- `JobScraperService.scrapeJobs` after its rate-limit check, on a cache
miss; the per-source fetchers are represented by their settled `outcomes`.
`Promise.allSettled` never rejects and every enrichment failure is caught
per job, so the surrounding `catch` (which would produce
`ScrapingError('Failed to scrape jobs from all sources')`) is unreachable
on this path and the call always fulfils with the (possibly empty)
deduplicated, enriched list. -/
def scrapeJobs (enrich : Job → Option (List String × Nat))
    (outcomes : List (Except ScrapeFailure (List Job))) :
    Except ScrapeFailure (List Job) :=
  .ok (enhanceJobsWithAI enrich (removeDuplicates (settleAll outcomes)))

/-- One stored cache entry (`CacheItem` in documentParser.ts): the value
with its absolute expiry timestamp in ms. -/
structure CacheItem (α : Type) where
  value : α
  expiry : Nat
deriving DecidableEq

/-- `BrowserCache` state: insertion-ordered map plus stats.  `keysCount`
is an `Int` because the source decrements it independently of the map. -/
structure BrowserCache (α : Type) where
  entries : List (String × CacheItem α)
  defaultTTL : Nat
  hits : Nat
  misses : Nat
  keysCount : Int
deriving DecidableEq

/-- JS `Map.prototype.set`: replace in place, else append. -/
def mapSet (k : String) (v : CacheItem α) :
    List (String × CacheItem α) → List (String × CacheItem α)
  | [] => [(k, v)]
  | (k2, v2) :: t => if k2 == k then (k, v) :: t else (k2, v2) :: mapSet k v t

/-- JS `Map.prototype.get`. -/
def mapGet (k : String) : List (String × CacheItem α) → Option (CacheItem α)
  | [] => none
  | (k2, v2) :: t => if k2 == k then some v2 else mapGet k t

/-- JS `Map.prototype.delete` (drops the one binding for `k`). -/
def mapDelete (k : String) :
    List (String × CacheItem α) → List (String × CacheItem α)
  | [] => []
  | (k2, v2) :: t => if k2 == k then t else (k2, v2) :: mapDelete k t

/-- `new BrowserCache({stdTTL})`: `defaultTTL = (options.stdTTL || 600) * 1000`. -/
def browserCacheNew (α : Type) (stdTTL : Option Nat) : BrowserCache α :=
  { entries := []
    defaultTTL := (match stdTTL with
      | some t => if t = 0 then 600 else t
      | none => 600) * 1000
    hits := 0
    misses := 0
    keysCount := 0 }

/-- `BrowserCache.set`: expiry is `Date.now() + (ttl ? ttl * 1000 :
this.defaultTTL)` — note that a `ttl` of `0` is falsy in JS and therefore
falls back to the default TTL.  Returns `true` and the new state. -/
def cacheSet (now : Nat) (k : String) (v : α) (ttl : Option Nat) (c : BrowserCache α) :
    Bool × BrowserCache α :=
  let expiryTime := now + (match ttl with
    | some t => if t = 0 then c.defaultTTL else t * 1000
    | none => c.defaultTTL)
  let wasPresent := (mapGet k c.entries).isSome
  (true,
   { c with
     entries := mapSet k ⟨v, expiryTime⟩ c.entries
     keysCount := if wasPresent then c.keysCount else c.keysCount + 1 })

/-- `BrowserCache.get`: a missing key is a miss; an entry with
`now > expiry` is lazily deleted and counted as a miss; otherwise a hit
returning the value. -/
def cacheGet (now : Nat) (k : String) (c : BrowserCache α) :
    Option α × BrowserCache α :=
  match mapGet k c.entries with
  | none => (none, { c with misses := c.misses + 1 })
  | some item =>
    if item.expiry < now then
      (none,
       { c with
         entries := mapDelete k c.entries
         keysCount := c.keysCount - 1
         misses := c.misses + 1 })
    else
      (some item.value, { c with hits := c.hits + 1 })

/-- `BrowserCache.has`: same lazy eviction as `get`, without touching the
hit/miss counters. -/
def cacheHas (now : Nat) (k : String) (c : BrowserCache α) :
    Bool × BrowserCache α :=
  match mapGet k c.entries with
  | none => (false, c)
  | some item =>
    if item.expiry < now then
      (false,
       { c with
         entries := mapDelete k c.entries
         keysCount := c.keysCount - 1 })
    else (true, c)

/-- `BrowserCache.cleanup`: the periodic background sweep deleting every
expired entry. -/
def cacheCleanup (now : Nat) (c : BrowserCache α) : BrowserCache α :=
  let expired := c.entries.filter (fun kv => decide (kv.2.expiry < now))
  { c with
    entries := c.entries.filter (fun kv => !(decide (kv.2.expiry < now)))
    keysCount := c.keysCount - expired.length }

/-- One `(points, duration)` rate-limit budget (config/environment.ts). -/
structure RateLimitConfig where
  points : Nat
  duration : Nat
deriving DecidableEq

/-- `config.rateLimits`: the default per-operation budgets. -/
def configRateLimits : List (String × RateLimitConfig) :=
  [("jobSearch", ⟨10, 60⟩),
   ("cvTailoring", ⟨5, 60⟩),
   ("coverLetterGeneration", ⟨10, 60⟩)]

/-- One fixed-window token bucket: when the current window began (ms)
and how many points were consumed in it. -/
structure Bucket where
  windowStart : Nat
  consumed : Nat
deriving DecidableEq

/-- Rate-limiter state: one optional bucket per `(operation, identifier)`
pair. -/
structure RLState where
  buckets : (String × String) → Option Bucket

/-- Replace the bucket stored for `key`. -/
def rlUpdate (key : String × String) (b : Bucket) (st : RLState) : RLState :=
  ⟨fun k => if k = key then some b else st.buckets k⟩

/-- Modelled from the spec: the per-key consume step of the external
`rate-limiter-flexible` memory limiter (`RateLimiterMemory.consume`),
whose source is not part of this repository.  Per §4.1, each operation
has a `(points, durationSeconds)` window budget; `consume` takes one
point; an exhausted bucket rejects with the remaining milliseconds until
the next refill, "computed from the bucket's window start plus duration
minus now".  The error payload is `msBeforeNext`. -/
def rlConsume (points duration now : Nat) (key : String × String) (st : RLState) :
    Except Nat Unit × RLState :=
  match st.buckets key with
  | none => (.ok (), rlUpdate key ⟨now, 1⟩ st)
  | some b =>
    if b.windowStart + duration * 1000 ≤ now then
      (.ok (), rlUpdate key ⟨now, 1⟩ st)
    else if b.consumed < points then
      (.ok (), rlUpdate key ⟨b.windowStart, b.consumed + 1⟩ st)
    else
      (.error (b.windowStart + duration * 1000 - now), st)

/-- Failure modes of `RateLimiterService.checkLimit`: the plain `Error`
thrown for an unconfigured operation, versus the typed `RateLimitError`
carrying retry-after seconds. -/
inductive RLFailure where
  | genericError (message : String)
  | rateLimitError (retryAfterSeconds : Nat)
deriving DecidableEq

/-- `RateLimiterService.checkLimit`: look up the per-operation limiter
(from `config.rateLimits`); missing limiter throws the generic error; a
rejected consume is wrapped in `RateLimitError` with
`Math.round(msBeforeNext / 1000) || 1` seconds. -/
def checkLimit (cfg : List (String × RateLimitConfig)) (now : Nat)
    (operation identifier : String) (st : RLState) :
    Except RLFailure Unit × RLState :=
  match cfg.lookup operation with
  | none =>
    (.error (.genericError ("Rate limiter not configured for operation: " ++ operation)),
     st)
  | some lim =>
    match rlConsume lim.points lim.duration now (operation, identifier) st with
    | (.ok _, st2) => (.ok (), st2)
    | (.error ms, st2) =>
      let secs := jsRoundDiv ms 1000
      (.error (.rateLimitError (if secs = 0 then 1 else secs)), st2)

/-- The empty rate-limiter state (fresh `RateLimiterMemory`). -/
def rlInit : RLState := ⟨fun _ => none⟩

/-- Run `checkLimit` once per timestamp, threading the state. -/
def runChecks (cfg : List (String × RateLimitConfig)) (op id : String) :
    List Nat → RLState → List (Except RLFailure Unit) × RLState
  | [], st => ([], st)
  | t :: ts, st =>
    let r := checkLimit cfg t op id st
    let rest := runChecks cfg op id ts r.2
    (r.1 :: rest.1, rest.2)

/-- A concrete 500-word CV document: the three section words, a bullet,
four vocabulary keywords (react, sql, aws, git), a `Month YYYY` date,
seven numeric tokens, padded with spaces to exactly 500 `split(' ')`
segments. -/
def testDoc : Str :=
  "experience skills education • react sql aws git March 2022 10 11 12 13 14 15".data
  ++ List.replicate 484 ' '

/-- A posting whose title contains an underscore: title `a_b`,
company `c`. -/
def collideJobA : Job :=
  { id := "seek_1", title := "a_b", company := "c", location := "Sydney"
    salary := "Not specified", description := "", requirements := []
    keywords := [], url := "https://example/1", datePosted := "2025-01-09"
    source := .seek, applicationStatus := .notApplied, matchScore := 0 }

/-- A different posting with the colliding key: title `a`,
company `b_c`. -/
def collideJobB : Job :=
  { id := "indeed_2", title := "a", company := "b_c", location := "Melbourne"
    salary := "Not specified", description := "", requirements := []
    keywords := [], url := "https://example/2", datePosted := "2025-01-09"
    source := .indeed, applicationStatus := .notApplied, matchScore := 0 }

deriving instance DecidableEq for Except

/-- A settled outcome list with one fulfilled and one rejected source. -/
def sampleOutcomes : List (Except ScrapeFailure (List Job)) :=
  [Except.ok [collideJobA],
   Except.error ⟨"Failed to scrape Indeed", some "indeed"⟩]

/-- Enrichment in which every per-job AI call throws (fallback path). -/
def noEnrich : Job → Option (List String × Nat) := fun _ => none

lemma keywordFoldl_eq (cvK : List Str) (ks : List Str) (m p : Nat) :
    ks.foldl
      (fun (q : Nat × Nat) kw =>
        (q.1 + (if keywordMatched cvK kw then 3 else 0), q.2 + 3))
      (m, p)
    = (m + 3 * ks.countP (fun kw => keywordMatched cvK kw),
       p + 3 * ks.length) := by
  induction ks generalizing m p with
  | nil => simp
  | cons a t ih =>
    simp only [List.foldl_cons, ih, List.countP_cons, List.length_cons]
    by_cases h : keywordMatched cvK a = true <;> simp [h] <;> omega

lemma reqFoldl_eq (lowerCv : Str) (rs : List Str) (m p : Nat) :
    rs.foldl
      (fun (q : Nat × Nat) req =>
        (q.1 + (if listContainsSub lowerCv (jsToLower req) then 2 else 0), q.2 + 2))
      (m, p)
    = (m + 2 * rs.countP (fun r => listContainsSub lowerCv (jsToLower r)),
       p + 2 * rs.length) := by
  induction rs generalizing m p with
  | nil => simp
  | cons a t ih =>
    simp only [List.foldl_cons, ih, List.countP_cons, List.length_cons]
    by_cases h : listContainsSub lowerCv (jsToLower a) = true <;> simp [h] <;> omega

lemma jsRoundDiv_le_hundred (num den : Nat) (h : num ≤ 100 * den)
    (hd : 0 < den) : jsRoundDiv num den ≤ 100 := by
  unfold jsRoundDiv
  have h2 : 0 < 2 * den := by omega
  have hlt : 2 * num + den < 101 * (2 * den) := by omega
  have := (Nat.div_lt_iff_lt_mul h2).mpr hlt
  omega

lemma rndNE_le (N D : Nat) : 2 * (D * rndNE N D) ≤ 2 * N + D := by
  have h1 : D * (N / D) + N % D = N := Nat.div_add_mod N D
  unfold rndNE
  split_ifs with h2 h3 h4
  · omega
  · have hD : D * (N / D + 1) = D * (N / D) + D := by ring
    omega
  · omega
  · have hD : D * (N / D + 1) = D * (N / D) + D := by ring
    omega

lemma flPair_le (a b k : Nat) (h : a ≤ k * b) :
    (flPair a b).1 ≤ k * 2 ^ (flPair a b).2 := by
  simp only [flPair]
  have hle := rndNE_le (a * 2 ^ flExp a b) b
  rcases Nat.eq_zero_or_pos b with rfl | hb
  · have ha : a = 0 := by omega
    subst ha
    simp [rndNE]
  · by_contra hcon
    push_neg at hcon
    have h2 : a * 2 ^ flExp a b ≤ k * b * 2 ^ flExp a b :=
      Nat.mul_le_mul_right _ h
    have h3 : b * (k * 2 ^ flExp a b + 1)
        ≤ b * rndNE (a * 2 ^ flExp a b) b :=
      Nat.mul_le_mul_left b (by omega)
    have h4 : b * (k * 2 ^ flExp a b + 1)
        = b * (k * 2 ^ flExp a b) + b := by ring
    have h5 : k * b * 2 ^ flExp a b = b * (k * 2 ^ flExp a b) := by ring
    rw [h4] at h3
    omega

lemma jsRound100Div_le (M P : Nat) (h : M ≤ P) : jsRound100Div M P ≤ 100 := by
  rw [jsRound100Div]
  rcases Nat.eq_zero_or_pos P with rfl | hP
  · simp
  · rw [if_neg (by omega)]
    have hx : (flPair M P).1 ≤ 2 ^ (flPair M P).2 := by
      simpa using flPair_le M P 1 (by omega)
    have hz := flPair_le (100 * (flPair M P).1) (2 ^ (flPair M P).2) 100
      (Nat.mul_le_mul_left 100 hx)
    exact jsRoundDiv_le_hundred _ _ hz (Nat.pos_pow_of_pos _ (by norm_num))

/-- C2 (amended): `calculateMatchScore` awards 3 points per job keyword
matched by substring in either direction against the CV's extracted
vocabulary keywords (out of `3×|jobKeywords|`), plus 2 points per
requirement phrase literally contained, case-insensitively, in the CV
text (out of `2×|requirements|`), and returns
`Math.round((matched/possible)·100)` as the program computes it — in
IEEE-754 double precision (`jsRound100Div`), which can differ by one
from exact rounding of the rational `100·matched/possible`; it returns 0
when both lists are empty, and the result is always in `[0, 100]` (it is
a `Nat`, so non-negativity is by construction). -/
theorem calculateMatchScore_float_spec (cv : Str) (ks rs : List Str) :
    (calculateMatchScore cv ks rs
      = (if 3 * ks.length + 2 * rs.length = 0 then 0
         else jsRound100Div
           (3 * ks.countP (fun kw => keywordMatched (extractKeywords cv) kw)
             + 2 * rs.countP (fun r => listContainsSub (jsToLower cv) (jsToLower r)))
           (3 * ks.length + 2 * rs.length)))
    ∧ (ks = [] → rs = [] → calculateMatchScore cv ks rs = 0)
    ∧ calculateMatchScore cv ks rs ≤ 100 := by
  have hA : ks.countP (fun kw => keywordMatched (extractKeywords cv) kw) ≤ ks.length :=
    List.countP_le_length _
  have hB : rs.countP (fun r => listContainsSub (jsToLower cv) (jsToLower r)) ≤ rs.length :=
    List.countP_le_length _
  have hval : calculateMatchScore cv ks rs
      = (if 3 * ks.length + 2 * rs.length = 0 then 0
         else jsRound100Div
           (3 * ks.countP (fun kw => keywordMatched (extractKeywords cv) kw)
             + 2 * rs.countP (fun r => listContainsSub (jsToLower cv) (jsToLower r)))
           (3 * ks.length + 2 * rs.length)) := by
    unfold calculateMatchScore
    simp only [keywordFoldl_eq, reqFoldl_eq, Nat.zero_add]
    rcases Nat.eq_zero_or_pos (3 * ks.length + 2 * rs.length) with h0 | h0
    · simp [h0]
    · rw [if_pos h0, if_neg (by omega)]
  refine ⟨hval, ?_, ?_⟩
  · rintro rfl rfl
    simpa using hval
  · rw [hval]
    rcases Nat.eq_zero_or_pos (3 * ks.length + 2 * rs.length) with h0 | h0
    · simp [h0]
    · rw [if_neg (by omega)]
      exact jsRound100Div_le _ _ (by omega)

set_option maxRecDepth 100000 in
/-- C2 counterexample: a CV matching 5 of 10 job keywords and 4 of 5
requirements gives matched = 23 of possible = 40; the program computes
`(23/40)·100` in binary64 as `57.49999999999999`, so `Math.round`
returns 57, while exact rounding of the rational `100·23/40 = 57.5`
gives 58 — the score is not `round(100 × matched / possible)` in the
exact-arithmetic sense the claim states. -/
theorem calculateMatchScore_not_exact_round :
    (ksC2.countP (fun kw => keywordMatched (extractKeywords cvC2) kw) = 5)
    ∧ ksC2.length = 10
    ∧ (rsC2.countP (fun r => listContainsSub (jsToLower cvC2) (jsToLower r)) = 4)
    ∧ rsC2.length = 5
    ∧ calculateMatchScore cvC2 ksC2 rsC2 = 57
    ∧ jsRoundDiv ((3 * 5 + 2 * 4) * 100) (3 * 10 + 2 * 5) = 58
    ∧ calculateMatchScore cvC2 ksC2 rsC2
        ≠ jsRoundDiv ((3 * 5 + 2 * 4) * 100) (3 * 10 + 2 * 5) := by
  refine ⟨by decide, by decide, by decide, by decide, by decide, by decide,
    by decide⟩

/-- C7: any 500-word document containing the section words "experience",
"skills" and "education" but neither "summary"/"profile" nor
"achievements"/"accomplishments", containing a bullet marker, a
`Month YYYY` date pattern, more than 5 numeric tokens and exactly 4
recognized vocabulary keywords, scores exactly
71 = 15+10+10+0+6+15+8+0+4+3 on the deterministic ATS scale. -/
theorem calculateATSScore_scenario (content : Str)
    (hw : wordCount content = 500)
    (hexp : listContainsSub (jsToLower content) "experience".data = true)
    (hedu : listContainsSub (jsToLower content) "education".data = true)
    (hskl : listContainsSub (jsToLower content) "skills".data = true)
    (hsum : listContainsSub (jsToLower content) "summary".data = false)
    (hpro : listContainsSub (jsToLower content) "profile".data = false)
    (hach : listContainsSub (jsToLower content) "achievements".data = false)
    (hacc : listContainsSub (jsToLower content) "accomplishments".data = false)
    (hbul : (listContainsSub content "•".data || listContainsSub content "-".data
              || listContainsSub content "*".data) = true)
    (hnum : 5 < countDigitRuns content)
    (hdat : hasDatePattern content = true)
    (hkw : (extractKeywords content).length = 4) :
    calculateATSScore content (extractKeywords content) = 71 := by
  rw [calculateATSScore, sectionScore, keywordDensityScore, lengthScore, formatScore]
  simp only [hexp, hedu, hskl, hsum, hpro, hach, hacc, hbul, hdat, hkw, hw,
    Bool.true_or, Bool.or_true, Bool.false_or, Bool.or_false, if_pos hnum]
  norm_num

set_option maxRecDepth 100000 in
/-- Witness for C7 at the concrete 500-word document `testDoc`. -/
theorem calculateATSScore_scenario_witness :
    (wordCount testDoc = 500
      ∧ listContainsSub (jsToLower testDoc) "experience".data = true
      ∧ listContainsSub (jsToLower testDoc) "education".data = true
      ∧ listContainsSub (jsToLower testDoc) "skills".data = true
      ∧ listContainsSub (jsToLower testDoc) "summary".data = false
      ∧ listContainsSub (jsToLower testDoc) "profile".data = false
      ∧ listContainsSub (jsToLower testDoc) "achievements".data = false
      ∧ listContainsSub (jsToLower testDoc) "accomplishments".data = false
      ∧ (listContainsSub testDoc "•".data || listContainsSub testDoc "-".data
          || listContainsSub testDoc "*".data) = true
      ∧ 5 < countDigitRuns testDoc
      ∧ hasDatePattern testDoc = true
      ∧ (extractKeywords testDoc).length = 4)
    ∧ calculateATSScore testDoc (extractKeywords testDoc) = 71 := by
  have h1 : wordCount testDoc = 500 := by decide
  have h2 : listContainsSub (jsToLower testDoc) "experience".data = true := by decide
  have h3 : listContainsSub (jsToLower testDoc) "education".data = true := by decide
  have h4 : listContainsSub (jsToLower testDoc) "skills".data = true := by decide
  have h5 : listContainsSub (jsToLower testDoc) "summary".data = false := by decide
  have h6 : listContainsSub (jsToLower testDoc) "profile".data = false := by decide
  have h7 : listContainsSub (jsToLower testDoc) "achievements".data = false := by decide
  have h8 : listContainsSub (jsToLower testDoc) "accomplishments".data = false := by decide
  have h9 : (listContainsSub testDoc "•".data || listContainsSub testDoc "-".data
      || listContainsSub testDoc "*".data) = true := by decide
  have h10 : 5 < countDigitRuns testDoc := by decide
  have h11 : hasDatePattern testDoc = true := by decide
  have h12 : (extractKeywords testDoc).length = 4 := by decide
  exact ⟨⟨h1, h2, h3, h4, h5, h6, h7, h8, h9, h10, h11, h12⟩,
    calculateATSScore_scenario testDoc h1 h2 h3 h4 h5 h6 h7 h8 h9 h10 h11 h12⟩

lemma removeDuplicatesAux_not_seen (jobs : List Job) :
    ∀ (seen : List String) (j : Job), j ∈ removeDuplicatesAux seen jobs →
      seen.contains (dedupKey j) = false := by
  induction jobs with
  | nil => intro seen j hj; simp [removeDuplicatesAux] at hj
  | cons a t ih =>
    intro seen j hj
    by_cases h : seen.contains (dedupKey a) = true
    · rw [removeDuplicatesAux, if_pos h] at hj
      exact ih seen j hj
    · rw [removeDuplicatesAux, if_neg h] at hj
      rcases List.mem_cons.mp hj with rfl | hj2
      · simpa using h
      · have h2 := ih (dedupKey a :: seen) j hj2
        rw [List.contains_cons] at h2
        simp only [Bool.or_eq_false_iff] at h2
        exact h2.2

lemma removeDuplicatesAux_pairwise (jobs : List Job) :
    ∀ seen, (removeDuplicatesAux seen jobs).Pairwise
      (fun a b => dedupKey a ≠ dedupKey b) := by
  induction jobs with
  | nil => intro seen; simp [removeDuplicatesAux]
  | cons a t ih =>
    intro seen
    rw [removeDuplicatesAux]
    by_cases h : seen.contains (dedupKey a) = true
    · rw [if_pos h]; exact ih seen
    · rw [if_neg h]
      refine List.Pairwise.cons ?_ (ih _)
      intro b hb hEq
      have h2 := removeDuplicatesAux_not_seen t _ b hb
      rw [List.contains_cons, ← hEq] at h2
      simp at h2

lemma removeDuplicatesAux_sublist (jobs : List Job) :
    ∀ seen, (removeDuplicatesAux seen jobs).Sublist jobs := by
  induction jobs with
  | nil => intro seen; simp [removeDuplicatesAux]
  | cons a t ih =>
    intro seen
    rw [removeDuplicatesAux]
    by_cases h : seen.contains (dedupKey a) = true
    · rw [if_pos h]; exact (ih seen).cons a
    · rw [if_neg h]; exact (ih _).cons₂ a

lemma removeDuplicatesAux_find (jobs : List Job) :
    ∀ (seen : List String) (k : String), seen.contains k = false →
      (removeDuplicatesAux seen jobs).find? (fun j => dedupKey j == k)
        = jobs.find? (fun j => dedupKey j == k) := by
  induction jobs with
  | nil => intro seen k hk; simp [removeDuplicatesAux]
  | cons a t ih =>
    intro seen k hk
    rw [removeDuplicatesAux]
    by_cases h : seen.contains (dedupKey a) = true
    · rw [if_pos h]
      have hne : (dedupKey a == k) = false := by
        by_contra hcon
        have hbe : (dedupKey a == k) = true := by
          cases hx : (dedupKey a == k) with
          | true => rfl
          | false => exact absurd hx hcon
        have hke : dedupKey a = k := eq_of_beq hbe
        rw [← hke, h] at hk
        cases hk
      rw [ih seen k hk]
      simp [List.find?_cons, hne]
    · rw [if_neg h]
      by_cases hak : (dedupKey a == k) = true
      · simp [List.find?_cons, hak]
      · have hne : (dedupKey a == k) = false := by
          cases hx : (dedupKey a == k) with
          | true => exact absurd hx hak
          | false => rfl
        have hka : (k == dedupKey a) = false :=
          beq_eq_false_iff_ne.mpr (Ne.symm (by
            intro hh
            exact hak (beq_iff_eq.mpr hh)))
        have hk2 : (dedupKey a :: seen).contains k = false := by
          rw [List.contains_cons, hka, hk]
          rfl
        simp only [List.find?_cons, hne]
        exact ih _ k hk2

/-- C4: the deduplication step returns a list in which no two postings
share the same lower-cased `(title, company)` pair; the result is an
order-preserving sublist of the input; and for every deduplication key
the retained posting is exactly the first-seen posting of the input with
that key (so every later duplicate is dropped, regardless of source). -/
theorem removeDuplicates_spec (jobs : List Job) :
    ((removeDuplicates jobs).Pairwise
      (fun a b => ¬(jsLowerS a.title = jsLowerS b.title
                    ∧ jsLowerS a.company = jsLowerS b.company)))
    ∧ (removeDuplicates jobs).Sublist jobs
    ∧ ∀ k : String,
        (removeDuplicates jobs).find? (fun j => dedupKey j == k)
          = jobs.find? (fun j => dedupKey j == k) := by
  refine ⟨?_, removeDuplicatesAux_sublist jobs [],
    fun k => removeDuplicatesAux_find jobs [] k rfl⟩
  have hp := removeDuplicatesAux_pairwise jobs []
  exact hp.imp (fun hne hpair => hne (by
    rw [dedupKey, dedupKey, hpair.1, hpair.2]))

/-- C10: the dedup key joins lower-cased title and company with an
underscore, so `("a_b", "c")` and `("a", "b_c")` collide: their keys are
equal although their lower-cased pairs differ, and the later posting is
dropped. -/
theorem removeDuplicates_collision :
    dedupKey collideJobA = dedupKey collideJobB
    ∧ ¬(jsLowerS collideJobA.title = jsLowerS collideJobB.title
        ∧ jsLowerS collideJobA.company = jsLowerS collideJobB.company)
    ∧ removeDuplicates [collideJobA, collideJobB] = [collideJobA] := by
  refine ⟨by decide, by decide, by decide⟩

/-- C1 (code bug): when every source fetcher fails, `scrapeJobs` does
not raise a `ScrapingError` — `Promise.allSettled` absorbs both
rejections, so the function fulfils with the empty list, an empty
success indistinguishable from "no jobs found". -/
theorem scrapeJobs_all_sources_failed (e1 e2 : ScrapeFailure)
    (enrich : Job → Option (List String × Nat)) :
    scrapeJobs enrich [Except.error e1, Except.error e2] = Except.ok [] := rfl

lemma settleAll_foldl (outcomes : List (Except ScrapeFailure (List Job))) :
    ∀ acc : List Job,
      outcomes.foldl
        (fun acc r => match r with | .ok js => acc ++ js | .error _ => acc) acc
      = acc ++ (outcomes.filterMap Except.toOption).flatten := by
  induction outcomes with
  | nil => intro acc; simp
  | cons r t ih =>
    intro acc
    cases r with
    | ok js => simp [ih, Except.toOption, List.append_assoc]
    | error e => simp [ih, Except.toOption]

lemma settleAll_eq (outcomes : List (Except ScrapeFailure (List Job))) :
    settleAll outcomes = (outcomes.filterMap Except.toOption).flatten := by
  simpa using settleAll_foldl outcomes []

/-- C6: when at least one source fulfils and at least one rejects, the
aggregate search still fulfils, and its value is exactly the
concatenation of the fulfilled sources' postings (in source order) after
deduplication and enrichment — a failed source contributes zero postings
and never aborts the aggregate call. -/
theorem scrapeJobs_partial_failure (enrich : Job → Option (List String × Nat))
    (outcomes : List (Except ScrapeFailure (List Job)))
    (hok : outcomes.any Except.isOk = true)
    (hfail : outcomes.any (fun r => !(Except.isOk r)) = true) :
    scrapeJobs enrich outcomes
      = Except.ok (enhanceJobsWithAI enrich
          (removeDuplicates ((outcomes.filterMap Except.toOption).flatten))) := by
  rw [scrapeJobs, settleAll_eq]

/-- Witness for C6: one fulfilled source (one posting), one rejected. -/
theorem scrapeJobs_partial_failure_witness :
    (sampleOutcomes.any Except.isOk = true)
    ∧ (sampleOutcomes.any (fun r => !(Except.isOk r)) = true)
    ∧ scrapeJobs noEnrich sampleOutcomes
        = Except.ok (enhanceJobsWithAI noEnrich
            (removeDuplicates ((sampleOutcomes.filterMap Except.toOption).flatten))) :=
  ⟨by decide, by decide,
   scrapeJobs_partial_failure noEnrich sampleOutcomes (by decide) (by decide)⟩

/-- C9: `checkLimit` on an operation with no configured limiter throws
the plain generic `Error` (not a `RateLimitError`) and leaves the whole
bucket state untouched — no points are consumed anywhere. -/
theorem checkLimit_unconfigured (now : Nat) (op id : String) (st : RLState)
    (h : configRateLimits.lookup op = none) :
    checkLimit configRateLimits now op id st
      = (Except.error (RLFailure.genericError
            ("Rate limiter not configured for operation: " ++ op)), st) := by
  simp only [checkLimit, h]

/-- Witness for C9 at the unconfigured operation name `documentParsing`. -/
theorem checkLimit_unconfigured_witness :
    (configRateLimits.lookup "documentParsing" = none)
    ∧ checkLimit configRateLimits 0 "documentParsing" "default" rlInit
        = (Except.error (RLFailure.genericError
              ("Rate limiter not configured for operation: " ++ "documentParsing")),
           rlInit) :=
  ⟨by decide, checkLimit_unconfigured 0 "documentParsing" "default" rlInit (by decide)⟩

/-- C3 counterexample: exhaust the 10-point `jobSearch` bucket at
t = 0 ms, then call again at t = 58 500 ms, leaving 1 500 ms in the
window.  The code answers `Math.round(1.5) || 1 = 2` seconds, not the
floored-with-minimum-1 value `max(⌊1.5⌋, 1) = 1` stated by the claim. -/
theorem checkLimit_retry_not_floored :
    (checkLimit configRateLimits 58500 "jobSearch" "default"
        (runChecks configRateLimits "jobSearch" "default"
          [0, 0, 0, 0, 0, 0, 0, 0, 0, 0] rlInit).2).1
      = Except.error (RLFailure.rateLimitError 2)
    ∧ max ((0 + 60 * 1000 - 58500) / 1000) 1 = 1
    ∧ (checkLimit configRateLimits 58500 "jobSearch" "default"
        (runChecks configRateLimits "jobSearch" "default"
          [0, 0, 0, 0, 0, 0, 0, 0, 0, 0] rlInit).2).1
      ≠ Except.error (RLFailure.rateLimitError
          (max ((0 + 60 * 1000 - 58500) / 1000) 1)) := by
  refine ⟨by decide, by decide, by decide⟩

lemma runChecks_ok_within (cfg : List (String × RateLimitConfig))
    (op id : String) (p d : Nat) (hcfg : cfg.lookup op = some ⟨p, d⟩) :
    ∀ (ts : List Nat) (t0 c : Nat) (st : RLState),
      st.buckets (op, id) = some ⟨t0, c⟩ →
      c + ts.length ≤ p →
      (∀ t ∈ ts, t < t0 + d * 1000) →
      (runChecks cfg op id ts st).1 = List.replicate ts.length (Except.ok ())
      ∧ ((runChecks cfg op id ts st).2).buckets (op, id)
          = some ⟨t0, c + ts.length⟩ := by
  intro ts
  induction ts with
  | nil =>
    intro t0 c st hb hle hwin
    exact ⟨rfl, by simpa using hb⟩
  | cons t ts ih =>
    intro t0 c st hb hle hwin
    simp only [List.length_cons] at hle
    have hwt := hwin t (List.mem_cons_self t ts)
    have hclt : checkLimit cfg t op id st
        = (.ok (), rlUpdate (op, id) ⟨t0, c + 1⟩ st) := by
      simp only [checkLimit, hcfg, rlConsume, hb]
      rw [if_neg (by omega), if_pos (by omega)]
    have hb2 : (rlUpdate (op, id) ⟨t0, c + 1⟩ st).buckets (op, id)
        = some ⟨t0, c + 1⟩ := by simp [rlUpdate]
    have hrec := ih t0 (c + 1) _ hb2 (by omega)
      (fun u hu => hwin u (List.mem_cons_of_mem _ hu))
    refine ⟨?_, ?_⟩
    · simp only [runChecks, hclt, hrec.1, List.length_cons, List.replicate_succ]
    · simp only [runChecks, hclt]
      rw [hrec.2]
      simp only [List.length_cons]
      congr 2
      omega

/-- C3 (amended): for any configured operation `(p, d)` with `p > 0`,
starting from a fresh limiter, each of the first `p` calls inside the
window succeeds and consumes one point (the bucket ends at `p` consumed),
and the `(p+1)`-th call within the window fails with
`retryAfterSeconds = Math.round((windowStart + 1000·d − now) / 1000) || 1`
— the remaining time rounded to the **nearest** whole second (not
floored), with 1 substituted when the rounding gives 0 — which is always
positive. -/
theorem checkLimit_exhausted (cfg : List (String × RateLimitConfig))
    (op id : String) (p d : Nat)
    (hcfg : cfg.lookup op = some ⟨p, d⟩) (hp : 0 < p)
    (t0 : Nat) (ts : List Nat) (hlen : ts.length + 1 = p)
    (hwin : ∀ t ∈ ts, t < t0 + d * 1000)
    (u : Nat) (hu1 : t0 ≤ u) (hu2 : u < t0 + d * 1000) :
    (runChecks cfg op id (t0 :: ts) rlInit).1 = List.replicate p (Except.ok ())
    ∧ ((runChecks cfg op id (t0 :: ts) rlInit).2).buckets (op, id) = some ⟨t0, p⟩
    ∧ (checkLimit cfg u op id (runChecks cfg op id (t0 :: ts) rlInit).2).1
        = Except.error (RLFailure.rateLimitError
            (if jsRoundDiv (t0 + d * 1000 - u) 1000 = 0 then 1
             else jsRoundDiv (t0 + d * 1000 - u) 1000))
    ∧ 0 < (if jsRoundDiv (t0 + d * 1000 - u) 1000 = 0 then 1
           else jsRoundDiv (t0 + d * 1000 - u) 1000) := by
  have hcl0 : checkLimit cfg t0 op id rlInit
      = (.ok (), rlUpdate (op, id) ⟨t0, 1⟩ rlInit) := by
    simp [checkLimit, hcfg, rlConsume, rlInit]
  have hb1 : (rlUpdate (op, id) ⟨t0, 1⟩ rlInit).buckets (op, id)
      = some ⟨t0, 1⟩ := by simp [rlUpdate]
  have hrest := runChecks_ok_within cfg op id p d hcfg ts t0 1 _ hb1
    (by omega) hwin
  have hfinal : ((runChecks cfg op id (t0 :: ts) rlInit).2).buckets (op, id)
      = some ⟨t0, p⟩ := by
    simp only [runChecks, hcl0]
    rw [hrest.2]
    congr 2
    omega
  refine ⟨?_, hfinal, ?_, ?_⟩
  · simp only [runChecks, hcl0, hrest.1, List.length_cons]
    rw [← hlen]
    simp [List.replicate_succ]
  · simp only [checkLimit, hcfg, rlConsume, hfinal]
    rw [if_neg (by omega), if_neg (by omega)]
  · by_cases h0 : jsRoundDiv (t0 + d * 1000 - u) 1000 = 0
    · rw [if_pos h0]; omega
    · rw [if_neg h0]; omega

/-- Witness for C3 (amended) and its counterexample context: `jobSearch`
(10 points / 60 s), ten calls at t = 0, the eleventh at t = 58 500 ms. -/
theorem checkLimit_exhausted_witness :
    (configRateLimits.lookup "jobSearch" = some ⟨10, 60⟩)
    ∧ (0 : Nat) < 10
    ∧ ([0, 0, 0, 0, 0, 0, 0, 0, 0] : List Nat).length + 1 = 10
    ∧ (∀ t ∈ ([0, 0, 0, 0, 0, 0, 0, 0, 0] : List Nat), t < 0 + 60 * 1000)
    ∧ (0 : Nat) ≤ 58500 ∧ 58500 < 0 + 60 * 1000
    ∧ ((runChecks configRateLimits "jobSearch" "default"
          (0 :: [0, 0, 0, 0, 0, 0, 0, 0, 0]) rlInit).1
        = List.replicate 10 (Except.ok ())
      ∧ ((runChecks configRateLimits "jobSearch" "default"
            (0 :: [0, 0, 0, 0, 0, 0, 0, 0, 0]) rlInit).2).buckets
            ("jobSearch", "default") = some ⟨0, 10⟩
      ∧ (checkLimit configRateLimits 58500 "jobSearch" "default"
            (runChecks configRateLimits "jobSearch" "default"
              (0 :: [0, 0, 0, 0, 0, 0, 0, 0, 0]) rlInit).2).1
          = Except.error (RLFailure.rateLimitError
              (if jsRoundDiv (0 + 60 * 1000 - 58500) 1000 = 0 then 1
               else jsRoundDiv (0 + 60 * 1000 - 58500) 1000))
      ∧ 0 < (if jsRoundDiv (0 + 60 * 1000 - 58500) 1000 = 0 then 1
             else jsRoundDiv (0 + 60 * 1000 - 58500) 1000)) :=
  ⟨by decide, by decide, by decide, by decide, by decide, by decide,
   checkLimit_exhausted configRateLimits "jobSearch" "default" 10 60
     (by decide) (by decide) 0 [0, 0, 0, 0, 0, 0, 0, 0, 0] (by decide)
     (by decide) 58500 (by decide) (by decide)⟩

/-- C5 counterexample: `set` with `ttl = 0` — in `ttl ? ttl * 1000 :
this.defaultTTL` the value `0` is falsy, so the entry silently gets the
default TTL (600 s); at 1 ms after the set the clock already strictly
exceeds the requested ttl, yet `get` still returns the value instead of
reporting absent. -/
theorem cache_zero_ttl_counterexample :
    (0 + 0 * 1000 < 1)
    ∧ (cacheGet 1 "k"
        ((cacheSet 0 "k" (42 : Nat) (some 0) (browserCacheNew Nat none)).2)).1
        = some 42 :=
  ⟨by decide, by decide⟩

lemma mapGet_mapSet_self (k : String) (item : CacheItem α)
    (e : List (String × CacheItem α)) :
    mapGet k (mapSet k item e) = some item := by
  induction e with
  | nil => simp [mapSet, mapGet]
  | cons hd t ih =>
    obtain ⟨k2, v2⟩ := hd
    by_cases h : (k2 == k) = true
    · simp [mapSet, mapGet, h]
    · simp [mapSet, mapGet, h, ih]

lemma mapGet_not_mem (k : String) (e : List (String × CacheItem α))
    (h : k ∉ e.map Prod.fst) : mapGet k e = none := by
  induction e with
  | nil => rfl
  | cons hd t ih =>
    obtain ⟨k2, v2⟩ := hd
    simp only [List.map_cons, List.mem_cons] at h
    push_neg at h
    have hne : (k2 == k) = false := beq_eq_false_iff_ne.mpr (Ne.symm h.1)
    simp [mapGet, hne, ih h.2]

lemma mapGet_mapDelete_mapSet (k : String) (item : CacheItem α)
    (e : List (String × CacheItem α)) (h : (e.map Prod.fst).Nodup) :
    mapGet k (mapDelete k (mapSet k item e)) = none := by
  induction e with
  | nil => simp [mapSet, mapDelete, mapGet]
  | cons hd t ih =>
    obtain ⟨k2, v2⟩ := hd
    simp only [List.map_cons, List.nodup_cons] at h
    by_cases hk : (k2 == k) = true
    · obtain rfl : k2 = k := eq_of_beq hk
      simp only [mapSet, hk, if_pos rfl]
      simp only [mapDelete, beq_self_eq_true, if_pos rfl]
      exact mapGet_not_mem _ t h.1
    · simp [mapSet, hk, mapDelete, mapGet, ih h.2]

/-- C5 (amended): for every cache state with well-formed entries, key,
value and **positive** ttl, after `set(k, v, ttl)` at `t0` a `get(k)` at
any time not past `t0 + 1000·ttl` returns the value, and once the clock
strictly exceeds `t0 + 1000·ttl`, `get(k)` reports absent and lazily
evicts the entry, and `has(k)` likewise — without any background sweep
having run.  (A ttl of 0 is falsy in JS and falls back to the default
TTL, so the claim holds only for positive ttl.) -/
theorem cache_roundtrip {α : Type} (c : BrowserCache α) (k : String) (v : α)
    (ttl t0 now : Nat) (httl : 0 < ttl)
    (hwf : (c.entries.map Prod.fst).Nodup) :
    (now ≤ t0 + ttl * 1000 →
      (cacheGet now k ((cacheSet t0 k v (some ttl) c).2)).1 = some v)
    ∧ (t0 + ttl * 1000 < now →
        (cacheGet now k ((cacheSet t0 k v (some ttl) c).2)).1 = none
        ∧ mapGet k ((cacheGet now k ((cacheSet t0 k v (some ttl) c).2)).2).entries
            = none
        ∧ (cacheHas now k ((cacheSet t0 k v (some ttl) c).2)).1 = false
        ∧ mapGet k ((cacheHas now k ((cacheSet t0 k v (some ttl) c).2)).2).entries
            = none) := by
  have httl0 : ¬(ttl = 0) := by omega
  have hset : ((cacheSet t0 k v (some ttl) c).2).entries
      = mapSet k ⟨v, t0 + ttl * 1000⟩ c.entries := by
    simp [cacheSet, httl0]
  constructor
  · intro hle
    simp only [cacheGet, hset, mapGet_mapSet_self]
    rw [if_neg (by simp; omega)]
  · intro hgt
    refine ⟨?_, ?_, ?_, ?_⟩
    · simp only [cacheGet, hset, mapGet_mapSet_self]
      rw [if_pos (by simpa using hgt)]
    · simp only [cacheGet, hset, mapGet_mapSet_self]
      rw [if_pos (by simpa using hgt)]
      exact mapGet_mapDelete_mapSet k _ c.entries hwf
    · simp only [cacheHas, hset, mapGet_mapSet_self]
      rw [if_pos (by simpa using hgt)]
    · simp only [cacheHas, hset, mapGet_mapSet_self]
      rw [if_pos (by simpa using hgt)]
      exact mapGet_mapDelete_mapSet k _ c.entries hwf

/-- Witness for C5 (amended): fresh cache, ttl 1 s; hit at 500 ms,
absent and evicted at 2000 ms. -/
theorem cache_roundtrip_witness :
    ((0 : Nat) < 1)
    ∧ (((browserCacheNew Nat none).entries).map Prod.fst).Nodup
    ∧ (cacheGet 500 "k"
        ((cacheSet 0 "k" (42 : Nat) (some 1) (browserCacheNew Nat none)).2)).1
        = some 42
    ∧ (cacheGet 2000 "k"
        ((cacheSet 0 "k" (42 : Nat) (some 1) (browserCacheNew Nat none)).2)).1
        = none
    ∧ (cacheHas 2000 "k"
        ((cacheSet 0 "k" (42 : Nat) (some 1) (browserCacheNew Nat none)).2)).1
        = false :=
  ⟨by decide, by decide,
   (cache_roundtrip (browserCacheNew Nat none) "k" 42 1 0 500
     (by decide) (by decide)).1 (by decide),
   ((cache_roundtrip (browserCacheNew Nat none) "k" 42 1 0 2000
     (by decide) (by decide)).2 (by decide)).1,
   ((cache_roundtrip (browserCacheNew Nat none) "k" 42 1 0 2000
     (by decide) (by decide)).2 (by decide)).2.2.1⟩

lemma listStartsWith_append (e : Str) : ∀ (l p : Str),
    listStartsWith l p = true → listStartsWith (l ++ e) p = true := by
  intro l p
  induction p generalizing l with
  | nil => intro _; cases l <;> simp [listStartsWith]
  | cons b u ih =>
    intro h
    cases l with
    | nil => simp [listStartsWith] at h
    | cons a t =>
      simp only [List.cons_append, listStartsWith, Bool.and_eq_true] at h ⊢
      exact ⟨h.1, ih t h.2⟩

lemma listStartsWith_nil_pat (l : Str) : listStartsWith l [] = true := by
  cases l <;> rfl

lemma listContainsSub_nil_pat (l : Str) : listContainsSub l [] = true := by
  cases l <;> simp [listContainsSub, listStartsWith_nil_pat]

lemma listContainsSub_append (e : Str) : ∀ (l p : Str),
    listContainsSub l p = true → listContainsSub (l ++ e) p = true := by
  intro l
  induction l with
  | nil =>
    intro p h
    cases p with
    | nil => simp [listContainsSub_nil_pat]
    | cons b u => simp [listContainsSub, listStartsWith] at h
  | cons a t ih =>
    intro p h
    simp only [listContainsSub, Bool.or_eq_true] at h
    simp only [List.cons_append, listContainsSub, Bool.or_eq_true]
    rcases h with h | h
    · exact Or.inl (listStartsWith_append e _ p h)
    · exact Or.inr (ih p h)

lemma dedupFirstAux_eq_self [BEq α] [LawfulBEq α] : ∀ (l seen : List α),
    (∀ a ∈ l, ∀ s ∈ seen, (s == a) = false) → l.Nodup →
    dedupFirstAux seen l = l := by
  intro l
  induction l with
  | nil => intro seen _ _; rfl
  | cons a t ih =>
    intro seen hs hn
    rw [dedupFirstAux]
    have hany : (seen.any (fun x => x == a)) = false := by
      simp only [List.any_eq_false]
      intro x hx
      simp [hs a (List.mem_cons_self a t) x hx]
    rw [if_neg (by simp [hany])]
    congr 1
    apply ih
    · intro b hb s hsmem
      rcases List.mem_cons.mp hsmem with rfl | hs2
      · have hne : s ≠ b := by
          intro hEq
          rw [List.nodup_cons] at hn
          exact hn.1 (hEq ▸ hb)
        exact beq_eq_false_iff_ne.mpr hne
      · exact hs b (List.mem_cons_of_mem a hb) s hs2
    · exact (List.nodup_cons.mp hn).2

lemma dedupFirst_eq_self [BEq α] [LawfulBEq α] (l : List α) (h : l.Nodup) :
    dedupFirst l = l :=
  dedupFirstAux_eq_self l [] (by simp) h

lemma techKeywords_nodup : techKeywords.Nodup := by decide

lemma extractKeywords_eq_filter (c : Str) :
    extractKeywords c
      = techKeywords.filter (fun kw => listContainsSub (jsToLower c) (jsToLower kw)) := by
  rw [extractKeywords]
  exact dedupFirst_eq_self _ (techKeywords_nodup.filter _)

lemma extractKeywords_length_mono (c e : Str) :
    (extractKeywords c).length ≤ (extractKeywords (c ++ e)).length := by
  rw [extractKeywords_eq_filter, extractKeywords_eq_filter]
  simp only [← List.countP_eq_length_filter]
  apply List.countP_mono_left
  intro kw _ h
  have hlow : jsToLower (c ++ e) = jsToLower c ++ jsToLower e := by
    simp [jsToLower]
  rw [hlow]
  exact listContainsSub_append _ _ _ h

lemma wordCount_append (c kw : Str) (h : ∀ x ∈ kw, (x == ' ') = false) :
    wordCount (c ++ kw) = wordCount c := by
  rw [wordCount, wordCount, List.filter_append]
  have hnil : List.filter (fun c => c == ' ') kw = [] := by
    rw [List.filter_eq_nil_iff]
    intro a ha
    simp [h a ha]
  rw [hnil, List.append_nil]

lemma countDigitRunsAux_zero (kw : Str) (h : ∀ x ∈ kw, x.isDigit = false) :
    ∀ prev, countDigitRunsAux prev kw = 0 := by
  induction kw with
  | nil => intro prev; rfl
  | cons c t ih =>
    intro prev
    have hc := h c (List.mem_cons_self c t)
    simp [countDigitRunsAux, hc,
      ih (fun x hx => h x (List.mem_cons_of_mem c hx))]

lemma countDigitRuns_append (c kw : Str) (h : ∀ x ∈ kw, x.isDigit = false) :
    countDigitRuns (c ++ kw) = countDigitRuns c := by
  rw [countDigitRuns, countDigitRuns]
  suffices hgen : ∀ (l : Str) (prev : Bool),
      countDigitRunsAux prev (l ++ kw) = countDigitRunsAux prev l by
    exact hgen c false
  intro l
  induction l with
  | nil => intro prev; simp [countDigitRunsAux, countDigitRunsAux_zero kw h prev]
  | cons a t ih =>
    intro prev
    simp only [List.cons_append, countDigitRunsAux, List.append_eq, ih]

lemma fourDigits_append (e : Str) : ∀ l, fourDigits l = true →
    fourDigits (l ++ e) = true := by
  intro l h
  rcases l with _ | ⟨a, _ | ⟨b, _ | ⟨c, _ | ⟨d, rest⟩⟩⟩⟩ <;>
    simp [fourDigits] at h ⊢ <;> exact h

lemma dateLowerRun_append (e : Str) : ∀ l, dateLowerRun l = true →
    dateLowerRun (l ++ e) = true := by
  intro l
  induction l with
  | nil => intro h; simp [dateLowerRun] at h
  | cons c rest ih =>
    intro h
    simp only [dateLowerRun] at h
    simp only [List.cons_append, dateLowerRun]
    by_cases h1 : isLowerAZ c = true
    · rw [if_pos h1] at h ⊢
      exact ih h
    · rw [if_neg h1] at h ⊢
      by_cases h2 : (c == ' ') = true
      · rw [if_pos h2] at h ⊢
        exact fourDigits_append e rest h
      · rw [if_neg h2] at h
        exact absurd h (by simp)

lemma dateAfterUpper_append (e : Str) : ∀ l, dateAfterUpper l = true →
    dateAfterUpper (l ++ e) = true := by
  intro l h
  cases l with
  | nil => simp [dateAfterUpper] at h
  | cons c rest =>
    simp only [dateAfterUpper, Bool.and_eq_true, List.cons_append] at h ⊢
    exact ⟨h.1, dateLowerRun_append e rest h.2⟩

lemma hasDatePattern_append (e : Str) : ∀ l, hasDatePattern l = true →
    hasDatePattern (l ++ e) = true := by
  intro l
  induction l with
  | nil => intro h; simp [hasDatePattern] at h
  | cons c rest ih =>
    intro h
    simp only [hasDatePattern, Bool.or_eq_true, Bool.and_eq_true,
      List.cons_append] at h ⊢
    rcases h with ⟨h1, h2⟩ | h
    · exact Or.inl ⟨h1, dateAfterUpper_append e rest h2⟩
    · exact Or.inr (ih h)

lemma ite_nonneg_mono {c1 c2 : Prop} [Decidable c1] [Decidable c2]
    (h : c1 → c2) (q : ℚ) (hq : 0 ≤ q) :
    (if c1 then q else 0) ≤ (if c2 then q else 0) := by
  by_cases h1 : c1
  · rw [if_pos h1, if_pos (h h1)]
  · rw [if_neg h1]
    by_cases h2 : c2
    · rw [if_pos h2]; exact hq
    · rw [if_neg h2]

lemma jsToLower_append (c e : Str) :
    jsToLower (c ++ e) = jsToLower c ++ jsToLower e := by
  simp [jsToLower]

lemma sectionScore_mono (c e : Str) : sectionScore c ≤ sectionScore (c ++ e) := by
  have hmono : ∀ p : Str, listContainsSub (jsToLower c) p = true →
      listContainsSub (jsToLower (c ++ e)) p = true := by
    intro p hp
    rw [jsToLower_append]
    exact listContainsSub_append _ _ p hp
  have hor : ∀ p q : Str,
      (listContainsSub (jsToLower c) p || listContainsSub (jsToLower c) q) = true →
      (listContainsSub (jsToLower (c ++ e)) p
        || listContainsSub (jsToLower (c ++ e)) q) = true := by
    intro p q h
    simp only [Bool.or_eq_true] at h ⊢
    rcases h with h | h
    · exact Or.inl (hmono p h)
    · exact Or.inr (hmono q h)
  rw [sectionScore, sectionScore]
  exact add_le_add (add_le_add (add_le_add
    (ite_nonneg_mono (hor _ _) 15 (by norm_num))
    (ite_nonneg_mono (hor _ _) 10 (by norm_num)))
    (ite_nonneg_mono (hor _ _) 10 (by norm_num)))
    (ite_nonneg_mono (hor _ _) 5 (by norm_num))

lemma keywordDensityScore_mono {k1 k2 : List Str} (h : k1.length ≤ k2.length) :
    keywordDensityScore k1 ≤ keywordDensityScore k2 := by
  rw [keywordDensityScore, keywordDensityScore]
  apply min_le_min _ le_rfl
  have hc : (k1.length : ℚ) ≤ (k2.length : ℚ) := by exact_mod_cast h
  exact mul_le_mul_of_nonneg_right hc (by norm_num)

lemma lengthScore_append (c kw : Str) (hns : ∀ x ∈ kw, (x == ' ') = false) :
    lengthScore (c ++ kw) = lengthScore c := by
  rw [lengthScore, lengthScore, wordCount_append c kw hns]

lemma formatScore_mono (c kw : Str) (hnd : ∀ x ∈ kw, x.isDigit = false) :
    formatScore c ≤ formatScore (c ++ kw) := by
  have hmonoL : ∀ p : Str, listContainsSub (jsToLower c) p = true →
      listContainsSub (jsToLower (c ++ kw)) p = true := by
    intro p hp
    rw [jsToLower_append]
    exact listContainsSub_append _ _ p hp
  have hmonoR : ∀ p : Str, listContainsSub c p = true →
      listContainsSub (c ++ kw) p = true :=
    fun p hp => listContainsSub_append _ _ p hp
  rw [formatScore, formatScore, countDigitRuns_append c kw hnd]
  refine add_le_add (add_le_add (add_le_add ?_ ?_) le_rfl) ?_
  · apply ite_nonneg_mono ?_ 8 (by norm_num)
    intro h
    simp only [Bool.or_eq_true] at h ⊢
    rcases h with (h | h) | h
    · exact Or.inl (Or.inl (hmonoR _ h))
    · exact Or.inl (Or.inr (hmonoR _ h))
    · exact Or.inr (hmonoR _ h)
  · apply ite_nonneg_mono ?_ 5 (by norm_num)
    intro h
    simp only [Bool.or_eq_true] at h ⊢
    rcases h with h | h
    · exact Or.inl (hmonoL _ h)
    · exact Or.inr (hmonoL _ h)
  · exact ite_nonneg_mono (fun h => hasDatePattern_append kw c h) 3 (by norm_num)

/-- C8: appending an essential section keyword (experience, employment,
education, qualification, skills, competencies, summary or profile) that
is not yet present never decreases the deterministic ATS score: every
component is monotone under the append (section and format checks are
substring-monotone, the keyword vocabulary can only gain members, and
the word count and digit-run count are unchanged because the keyword
contains no spaces and no digits). -/
theorem calculateATSScore_section_keyword_mono (content : Str) (kw : Str)
    (hkw : kw ∈ essentialSectionKeywords)
    (habsent : listContainsSub (jsToLower content) kw = false) :
    calculateATSScore content (extractKeywords content)
      ≤ calculateATSScore (content ++ kw) (extractKeywords (content ++ kw)) := by
  have hfacts : (∀ x ∈ kw, (x == ' ') = false) ∧ (∀ x ∈ kw, x.isDigit = false) := by
    simp only [essentialSectionKeywords, List.mem_cons,
      List.not_mem_nil, or_false] at hkw
    rcases hkw with rfl | rfl | rfl | rfl | rfl | rfl | rfl | rfl <;>
      exact ⟨by decide, by decide⟩
  rw [calculateATSScore, calculateATSScore]
  apply min_le_min _ le_rfl
  rw [lengthScore_append content kw hfacts.1]
  exact add_le_add (add_le_add (add_le_add
    (sectionScore_mono content kw)
    (keywordDensityScore_mono (extractKeywords_length_mono content kw)))
    le_rfl)
    (formatScore_mono content kw hfacts.2)

/-- Witness for C8: appending `experience` to the short document
`short`, where it is absent. -/
theorem calculateATSScore_section_keyword_mono_witness :
    ("experience".data ∈ essentialSectionKeywords
      ∧ listContainsSub (jsToLower "short".data) "experience".data = false)
    ∧ calculateATSScore "short".data (extractKeywords "short".data)
        ≤ calculateATSScore ("short".data ++ "experience".data)
            (extractKeywords ("short".data ++ "experience".data)) :=
  ⟨⟨by decide, by decide⟩,
   calculateATSScore_section_keyword_mono "short".data "experience".data
     (by decide) (by decide)⟩
